import Mathlib

/-!
Verification of the image-optimizer repository's optimization orchestration core.

The development shallowly embeds the Rust sources:
* `src/file_ops/size_calculator.rs` (`calculate_resize_dimensions`),
* `src/optimization/image_optimizer.rs` (`optimize_image`),
* `src/optimization/png_optimizer.rs` (the oxipng preset-level selection),
* `src/file_ops/output_manager.rs` (`ensure_output_dir`),
* `src/file_ops/backup_manager.rs` (`create_backup`),
* `src/updater/version_comparator.rs` (`compare_versions`),
* `src/main.rs` (the batch counter fold).

Filesystem paths are modelled as lists of components (each component a list of
characters), mirroring Rust `Path` component semantics; file contents are lists
of bytes (`List Nat`); the filesystem is a partial map from paths to contents.
`f64` arithmetic in the resize planner is modelled by exact rationals with
round-half-away-from-zero, matching `f64::round`; every concrete value proved
about it is exactly representable in `f64`.
-/

/-- A file or directory name: the characters of one path component. -/
abbrev FileName := List Char

/-- A filesystem path, as its list of components (Rust `Path::components`). -/
abbrev FsPath := List FileName

/-- File contents, as a list of bytes. -/
abbrev Content := List Nat

/-- Splits a name at its last dot: `some (before, after)` when a dot occurs,
mirroring how Rust locates the extension separator in a file name. -/
def splitLastDot : List Char → Option (List Char × List Char)
  | [] => none
  | c :: cs =>
    match splitLastDot cs with
    | some (pre, post) => some (c :: pre, post)
    | none => if c = '.' then some ([], cs) else none

/-- Rust `Path::extension` restricted to a file name: the part after the last
dot, provided the part before it is nonempty (so `.gitignore` has none). -/
def fileExtension (name : List Char) : Option (List Char) :=
  match splitLastDot name with
  | some (pre, post) => if pre = [] then none else some post
  | none => none

/-- Rust `Path::file_stem` restricted to a file name: everything before the
last dot when an extension exists, the whole name otherwise. -/
def fileStem (name : List Char) : List Char :=
  match splitLastDot name with
  | some (pre, _) => if pre = [] then name else pre
  | none => name

/-- Rust `Path::with_extension` restricted to a file name: the stem followed by
a dot and the new extension (just the stem when the new extension is empty). -/
def withExtension (name ext : List Char) : List Char :=
  if ext = [] then fileStem name else fileStem name ++ '.' :: ext

/-- Rust `Path::extension` on a component path: the extension of its last
component (the file name). -/
def pathExtension (p : FsPath) : Option (List Char) :=
  p.getLast?.bind fileExtension

/-- Rust `Path::with_extension` on a component path: rewrites the extension of
the last component. -/
def pathWithExtension (p : FsPath) (ext : List Char) : FsPath :=
  match p.getLast? with
  | none => p
  | some name => p.dropLast ++ [withExtension name ext]

/-- The in-place staging path computed by `optimize_image`
(`input_path.with_extension(format!("tmp.{}", ext.unwrap_or("jpg")))`). -/
def inPlaceStagingPath (p : FsPath) : FsPath :=
  pathWithExtension p ("tmp.".data ++ ((pathExtension p).getD "jpg".data))

/-- The backup path computed by `create_backup`
(`file_path.with_extension(format!("{}.bak", ext.unwrap_or("")))`). -/
def backupPath (p : FsPath) : FsPath :=
  pathWithExtension p (((pathExtension p).getD []) ++ ".bak".data)

/-- Rust `Path::strip_prefix` on component paths: removes `pre` from the front
of `p` componentwise, failing when `pre` is not a prefix of `p`. -/
def stripPfx : FsPath → FsPath → Option FsPath
  | [], p => some p
  | _ :: _, [] => none
  | a :: asr, b :: bs => if a = b then stripPfx asr bs else none

/-- `f64::round`: round half away from zero, on the exact rationals that model
the `f64` computations of `calculate_resize_dimensions`. -/
def f64Round (x : ℚ) : ℤ :=
  if 0 ≤ x then Rat.floor (x + 1/2) else Rat.ceil (x - 1/2)

/-- `calculate_resize_dimensions` from `src/file_ops/size_calculator.rs`:
if the longer edge fits within `max_size` the dimensions are returned
unchanged; otherwise both axes are scaled by `max_size / longer_edge` and
rounded to nearest independently.  The `f64` arithmetic of the source is
modelled by exact rationals; the `as u32` casts cannot saturate for
`u32`-ranged inputs because the scale factor is below one. -/
def calculate_resize_dimensions (width height max_size : Nat) : Nat × Nat :=
  let longer_edge := max width height
  if longer_edge ≤ max_size then (width, height)
  else
    let scale_factor : ℚ := (max_size : ℚ) / (longer_edge : ℚ)
    ((f64Round ((width : ℚ) * scale_factor)).toNat,
     (f64Round ((height : ℚ) * scale_factor)).toNat)

/-- One step of reading a decimal numeral, most significant digit first. -/
def decimalStep (a : Nat) (c : Char) : Nat :=
  10 * a + (c.toNat - '0'.toNat)

/-- The numeric value denoted by a digit string (most significant digit
first); the standard reading of a decimal integer literal. -/
def decimalValue (t : List Char) : Nat :=
  t.foldl decimalStep 0

/-- Digit-accumulation loop of Rust `<uN as FromStr>::from_str` with checked
arithmetic: fails on a non-digit character or as soon as the accumulator
would exceed `bound` (the type's maximum value). -/
def parseDigitsBounded (bound : Nat) : Nat → List Char → Option Nat
  | acc, [] => some acc
  | acc, c :: cs =>
    if c.isDigit then
      let acc1 := acc * 10 + (c.toNat - '0'.toNat)
      if acc1 ≤ bound then parseDigitsBounded bound acc1 cs else none
    else none

/-- Rust `<uN as FromStr>::from_str` for an unsigned integer type with maximum
value `bound`: an optional leading `+` sign followed by a nonempty digit
string, rejecting values above `bound`.  A `-` sign is consumed only for
signed integer types, so here it falls through to the digit loop and fails
as an invalid digit (`"-0"` is a parse error for `u8`/`u32`). -/
def parseUIntBounded (bound : Nat) (s : List Char) : Option Nat :=
  match s with
  | [] => none
  | '+' :: rest => if rest = [] then none else parseDigitsBounded bound 0 rest
  | _ => parseDigitsBounded bound 0 s

/-- Rust `str::parse::<u8>`. -/
def u8FromStr : List Char → Option Nat := parseUIntBounded 255

/-- Rust `str::parse::<u32>`. -/
def u32FromStr : List Char → Option Nat := parseUIntBounded 4294967295

/-- The oxipng preset level selected by `optimize_png`
(`src/optimization/png_optimizer.rs`, lines 45-57): the literal `"max"` maps
to preset 6, a string parsing as a `u8` at most 6 maps to that preset, and
anything else is an error, returned before the PNG-structure optimizer runs. -/
def png_preset_level (png_optimization_level : List Char) : Option Nat :=
  if png_optimization_level = "max".data then some 6
  else
    match u8FromStr png_optimization_level with
    | some level => if level ≤ 6 then some level else none
    | none => none

/-- Specification-side reading of an unsigned decimal integer literal: an
optional leading `+` sign followed by a nonempty digit string, denoting the
value `v` (a `-` sign is not part of unsigned integer syntax). -/
def denotesDecimalInt (s : List Char) (v : ℤ) : Prop :=
  (s ≠ [] ∧ s.all Char.isDigit = true ∧ v = decimalValue s) ∨
  (∃ t, s = '+' :: t ∧ t ≠ [] ∧ t.all Char.isDigit = true ∧ v = decimalValue t)

/-- Rust `str::trim_start_matches('v')`: removes every leading `v`. -/
def trimStartMatchesV : List Char → List Char
  | 'v' :: rest => trimStartMatchesV rest
  | s => s

/-- Rust `str::split('.')`: the list of dot-separated parts (an empty string
yields one empty part). -/
def splitOnDot : List Char → List (List Char)
  | [] => [[]]
  | '.' :: rest => [] :: splitOnDot rest
  | c :: rest =>
    match splitOnDot rest with
    | [] => [[c]]
    | p :: ps => (c :: p) :: ps

/-- The `parse_version` closure of `compare_versions`
(`src/updater/version_comparator.rs`): splits on dots and parses every part
as a `u32`, failing if any part fails. -/
def parse_version (s : List Char) : Option (List Nat) :=
  (splitOnDot s).mapM u32FromStr

/-- The comparison loop of `compare_versions` over the zipped version parts:
the first strictly greater latest-part reports an update, the first strictly
greater current-part reports none, equal parts continue. -/
def cmpZip : List (Nat × Nat) → Option Bool
  | [] => none
  | (curr, latest) :: rest =>
    if latest > curr then some true
    else if curr > latest then some false
    else cmpZip rest

/-- `compare_versions` from `src/updater/version_comparator.rs`: strips
leading `v`s, parses both versions, compares parts pairwise, and on full
agreement of the compared parts reports an update exactly when the latest
version has more parts. -/
def compare_versions (current latest : List Char) : Option Bool := do
  let current_parts ← parse_version (trimStartMatchesV current)
  let latest_parts ← parse_version (trimStartMatchesV latest)
  match cmpZip (current_parts.zip latest_parts) with
  | some b => pure b
  | none => pure (decide (latest_parts.length > current_parts.length))

/-- A filesystem state: a partial map from paths to file contents.  Directories
are not tracked; `create_dir_all` never fails in this model. -/
abbrev FS := FsPath → Option Content

/-- `std::fs::write` / a full in-place file creation: the path now holds
exactly the given content. -/
def fsWrite (fs : FS) (p : FsPath) (c : Content) : FS :=
  fun q => if q = p then some c else fs q

/-- `std::fs::remove_file`. -/
def fsErase (fs : FS) (p : FsPath) : FS :=
  fun q => if q = p then none else fs q

/-- `std::fs::rename src dst`: `dst` now holds the content of `src`, and `src`
no longer exists. -/
def fsRename (fs : FS) (src dst : FsPath) : FS :=
  fun q => if q = dst then fs src else if q = src then none else fs q

/-- `std::fs::copy src dst`: fails when `src` does not exist; otherwise `dst`
is created with truncation *before* the content is read, so when `dst` is the
same path as `src` the truncation empties the file first and the copy leaves
it empty (the documented hazard of copying a file onto itself); with distinct
paths `dst` receives the content of `src`. -/
def fsCopy (fs : FS) (src dst : FsPath) : Option FS :=
  match fs src with
  | none => none
  | some c => some (fsWrite fs dst (if dst = src then [] else c))

/-- The fields of the CLI configuration that `optimize_image` consults. -/
structure Cli where
  output : Option FsPath
  backup : Bool
  max_size : Option Nat

/-- Oracle for the external collaborators of one `optimize_image` run: the
image codec and the fallible backup copy.  `decodeResult` is the outcome of
`image::open` (dimensions on success), consulted only when a maximum edge
size is configured.  `encodeResult` is the staged output the format encoder
writes at the output path, `none` meaning the encode or staging write failed;
`encodeLeftover` is whatever partial data a failed staging write left at the
output path (`fs::write` truncates before writing, and `optimize_png` copies
the input to the output path before validating its options). -/
structure Env where
  decodeResult : Option (Nat × Nat)
  encodeResult : Option Content
  encodeLeftover : Option Content
  backupOk : Bool

/-- Errors surfaced by `optimize_image`; the constructors name the failing
step. -/
inductive OptError where
  | metadataFailed
  | outputResolveFailed
  | backupFailed
  | decodeFailed
  | unsupportedFormat
  | encodeFailed
  | copySourceMissing
deriving DecidableEq

/-- `ensure_output_dir` from `src/file_ops/output_manager.rs`: strips the
input root from the file path and joins the remainder onto the output root;
fails when the file path is not under the input root.  Intermediate directory
creation is not tracked by the filesystem model. -/
def ensure_output_dir (output_path input_path file_path : FsPath) : Option FsPath :=
  (stripPfx input_path file_path).map (fun rel => output_path ++ rel)

/-- The lowercased extension `optimize_image` dispatches on. -/
def lowerExtOf (p : FsPath) : List Char :=
  ((pathExtension p).getD []).map Char.toLower

/-- Whether `optimize_image`'s dispatch recognises the extension. -/
def dispatchSupported (e : List Char) : Bool :=
  e == "jpg".data || e == "jpeg".data || e == "png".data || e == "webp".data

/-- `optimize_image` from `src/optimization/image_optimizer.rs`, over the
filesystem model: reads the original size, resolves the staging/output path
(in-place staging path or mirrored output-tree path), optionally creates a
backup, optionally decodes for resizing, dispatches to a format encoder
(abstracted by `env`), and applies the keep-only-if-smaller policy: a
strictly smaller staged output is renamed over the original in in-place mode
or left in place in separate-output mode, reporting the saved bytes;
otherwise the staging file is deleted (in-place) or the input file is copied
over the output path (separate-output), reporting zero. -/
def optimize_image (fs : FS) (input_path : FsPath) (args : Cli) (input_dir : FsPath)
    (env : Env) : Except OptError Nat × FS :=
  match fs input_path with
  | none => (.error .metadataFailed, fs)
  | some original =>
    let original_size := original.length
    let is_in_place := args.output.isNone
    let outRes : Option FsPath :=
      match args.output with
      | some output_dir => ensure_output_dir output_dir input_dir input_path
      | none => some (inPlaceStagingPath input_path)
    match outRes with
    | none => (.error .outputResolveFailed, fs)
    | some output_path =>
      let afterBackup : Except OptError FS :=
        if args.backup && is_in_place then
          if env.backupOk then .ok (fsWrite fs (backupPath input_path) original)
          else .error .backupFailed
        else .ok fs
      match afterBackup with
      | .error e => (.error e, fs)
      | .ok fs1 =>
        if args.max_size.isSome && env.decodeResult.isNone then
          (.error .decodeFailed, fs1)
        else if !dispatchSupported (lowerExtOf input_path) then
          (.error .unsupportedFormat, fs1)
        else
          match env.encodeResult with
          | none =>
            (.error .encodeFailed,
              match env.encodeLeftover with
              | some junk => fsWrite fs1 output_path junk
              | none => fs1)
          | some staged =>
            let fs2 := fsWrite fs1 output_path staged
            match fs2 output_path with
            | none => (.error .metadataFailed, fs2)
            | some stagedOnDisk =>
              let optimized_size := stagedOnDisk.length
              if optimized_size < original_size then
                if is_in_place then
                  (.ok (original_size - optimized_size), fsRename fs2 output_path input_path)
                else
                  (.ok (original_size - optimized_size), fs2)
              else
                if is_in_place then
                  (.ok 0, fsErase fs2 output_path)
                else
                  match fsCopy fs2 input_path output_path with
                  | none => (.error .copySourceMissing, fs2)
                  | some fs3 => (.ok 0, fs3)

/-- The per-outcome counter fold of `main`'s `image_processor` closure
(`src/main.rs`, lines 94-110): a positive saved-bytes outcome adds to
`total_saved` and increments `processed`, a zero outcome increments
`skipped`, an error touches nothing. -/
structure BatchTotals where
  total_saved : Nat
  processed : Nat
  skipped : Nat
deriving DecidableEq

/-- One `image_processor` step folding a file's outcome into the counters. -/
def image_processor (t : BatchTotals) (outcome : Except OptError Nat) : BatchTotals :=
  match outcome with
  | .ok saved_bytes =>
    if saved_bytes > 0 then
      { t with total_saved := t.total_saved + saved_bytes, processed := t.processed + 1 }
    else
      { t with skipped := t.skipped + 1 }
  | .error _ => t

/-- The outcome of each file of a sequential batch run (`--no-parallel`),
threading the filesystem through the runs in order. -/
def batch_outcomes (args : Cli) (input_dir : FsPath) (envOf : FsPath → Env) :
    FS → List FsPath → List (Except OptError Nat)
  | _, [] => []
  | fs, f :: rest =>
    let r := optimize_image fs f args input_dir (envOf f)
    r.1 :: batch_outcomes args input_dir envOf r.2 rest

/-- The counters at the end of a sequential batch run, as accumulated by
`main`'s loop over the discovered files. -/
def run_batch (args : Cli) (input_dir : FsPath) (envOf : FsPath → Env)
    (fs : FS) (files : List FsPath) : BatchTotals :=
  (files.foldl (fun st f =>
      let r := optimize_image st.1 f args input_dir (envOf f)
      (r.2, image_processor st.2 r.1)) (fs, ⟨0, 0, 0⟩)).2

/-- Saved bytes an outcome contributes to `total_saved`. -/
def savedBytesOf : Except OptError Nat → Nat
  | .ok saved => saved
  | .error _ => 0

/-- Whether an outcome increments the `processed` counter. -/
def isShrunk : Except OptError Nat → Bool
  | .ok saved => decide (saved > 0)
  | .error _ => false

/-- Whether an outcome increments the `skipped` counter. -/
def isSkipped : Except OptError Nat → Bool
  | .ok saved => decide (saved = 0)
  | .error _ => false

/-- The input file `d/a.jpg` of the concrete scenarios below. -/
def cexInputPath : FsPath := ["d".data, "a.jpg".data]

/-- The input root `d` of the concrete scenarios below. -/
def cexDir : FsPath := ["d".data]

/-- A one-file store holding a three-byte original at `d/a.jpg`. -/
def cexFs : FS := fun q => if q = cexInputPath then some [0, 1, 2] else none

/-- Separate-output configuration whose output directory equals the input
root, making the resolved output path coincide with the input path. -/
def cexArgsAlias : Cli := { output := some cexDir, backup := false, max_size := none }

/-- Codec oracle producing a one-byte (strictly smaller) staged output. -/
def cexEnvSmaller : Env :=
  { decodeResult := none, encodeResult := some [7], encodeLeftover := none, backupOk := true }

/-- Codec oracle producing a four-byte (not smaller) staged output. -/
def cexEnvLarger : Env :=
  { decodeResult := none, encodeResult := some [9, 9, 9, 9], encodeLeftover := none,
    backupOk := true }

/-- Plain in-place configuration: no output directory, no backup, no resize. -/
def inPlaceArgs : Cli := { output := none, backup := false, max_size := none }

/-- Codec oracle whose encode step fails, leaving a one-byte partial staging
file behind. -/
def failEnv : Env :=
  { decodeResult := none, encodeResult := none, encodeLeftover := some [5], backupOk := true }

/-- Codec oracle whose encode step fails after partially writing two bytes to
the output path (a truncating `fs::write` interrupted mid-write). -/
def cexEnvFail : Env :=
  { decodeResult := none, encodeResult := none, encodeLeftover := some [5, 5],
    backupOk := true }

/-- A store holding a 10000-byte original at `d/a.jpg`. -/
def bigFs : FS :=
  fun q => if q = cexInputPath then some (List.replicate 10000 0) else none

/-- Codec oracle producing an 8000-byte staged output. -/
def bigEnv : Env :=
  { decodeResult := none, encodeResult := some (List.replicate 8000 0),
    encodeLeftover := none, backupOk := true }

/-- The input file `d/b.png` of the skip scenario. -/
def pngPath : FsPath := ["d".data, "b.png".data]

/-- A store holding a 500-byte original at `d/b.png`. -/
def pngFs : FS := fun q => if q = pngPath then some (List.replicate 500 0) else none

/-- Codec oracle producing a 600-byte (larger) staged output. -/
def pngEnv : Env :=
  { decodeResult := none, encodeResult := some (List.replicate 600 0),
    encodeLeftover := none, backupOk := true }

theorem splitLastDot_eq_append {name pre post : List Char}
    (h : splitLastDot name = some (pre, post)) : name = pre ++ '.' :: post := by
  induction name generalizing pre post with
  | nil => simp [splitLastDot] at h
  | cons c cs ih =>
    simp only [splitLastDot] at h
    cases hcs : splitLastDot cs with
    | some pp =>
      obtain ⟨p1, p2⟩ := pp
      rw [hcs] at h
      simp only [Option.some.injEq, Prod.mk.injEq] at h
      obtain ⟨h1, h2⟩ := h
      subst h2
      rw [← h1]
      simpa using ih hcs
    | none =>
      rw [hcs] at h
      by_cases hc : c = '.'
      · rw [if_pos hc] at h
        have h2 : ([], cs) = (pre, post) := Option.some.inj h
        have hpre : pre = [] := (Prod.mk.injEq _ _ _ _ ▸ h2).1.symm
        have hpost : post = cs := (Prod.mk.injEq _ _ _ _ ▸ h2).2.symm
        subst hpre; subst hpost; simp [hc]
      · rw [if_neg hc] at h
        exact absurd h (by simp)

theorem withExtension_length {name ext : List Char} (hx : ext ≠ []) :
    (withExtension name ext).length =
      (fileStem name).length + 1 + ext.length := by
  simp [withExtension, hx, List.length_append]
  omega

theorem withExtension_ne {name ext : List Char}
    (h : ((fileExtension name).getD []).length < ext.length) :
    withExtension name ext ≠ name := by
  have hx : ext ≠ [] := by
    intro he; rw [he] at h; simp at h
  intro heq
  have hlen : (withExtension name ext).length = name.length := by rw [heq]
  rw [withExtension_length hx] at hlen
  cases hsp : splitLastDot name with
  | none =>
    have hstem : fileStem name = name := by simp [fileStem, hsp]
    rw [hstem] at hlen
    omega
  | some pp =>
    obtain ⟨pre, post⟩ := pp
    have hname := splitLastDot_eq_append hsp
    by_cases hpre : pre = []
    · have hstem : fileStem name = name := by simp [fileStem, hsp, hpre]
      rw [hstem] at hlen
      omega
    · have hstem : fileStem name = pre := by simp [fileStem, hsp, hpre]
      have hfe : fileExtension name = some post := by simp [fileExtension, hsp, hpre]
      rw [hfe] at h
      simp only [Option.getD_some] at h
      rw [hstem] at hlen
      have : name.length = pre.length + 1 + post.length := by
        rw [hname]; simp [List.length_append]; omega
      omega

theorem f64Round_floor {x : ℚ} (h : 0 ≤ x) : f64Round x = ⌊x + 1/2⌋ := by
  rw [f64Round, if_pos h, Rat.floor_def', ← Rat.floor_def]

theorem f64Round_eq_round {x : ℚ} (h : 0 ≤ x) : f64Round x = round x := by
  rw [f64Round_floor h, round_eq]

theorem calcRD_eval {width height max_size : Nat} {a b : ℤ}
    (h : max_size < max width height)
    (ha : ⌊(width : ℚ) * ((max_size : ℚ) / ((max width height : ℕ) : ℚ)) + 1/2⌋ = a)
    (hb : ⌊(height : ℚ) * ((max_size : ℚ) / ((max width height : ℕ) : ℚ)) + 1/2⌋ = b) :
    calculate_resize_dimensions width height max_size = (a.toNat, b.toNat) := by
  simp only [calculate_resize_dimensions]
  rw [if_neg (not_le.mpr h)]
  rw [f64Round_floor (by positivity), f64Round_floor (by positivity), ha, hb]

/-- Claim C5: for every `(width, height, max_size)` whose longer edge already
fits within `max_size`, `calculate_resize_dimensions` returns the dimensions
unchanged. -/
theorem calculate_resize_dimensions_noop (width height max_size : Nat)
    (h : max width height ≤ max_size) :
    calculate_resize_dimensions width height max_size = (width, height) := by
  simp [calculate_resize_dimensions, h]

/-- Witness for claim C5 at the documented example `(800, 600, 1000)`. -/
theorem calculate_resize_dimensions_noop_witness :
    max 800 600 ≤ 1000 ∧ calculate_resize_dimensions 800 600 1000 = (800, 600) :=
  ⟨by decide, calculate_resize_dimensions_noop 800 600 1000 (by decide)⟩

/-- Claim C6: when the longer edge exceeds `max_size`,
`calculate_resize_dimensions` scales both axes by
`max_size / max(width, height)` and rounds each to the nearest integer
independently; in particular `(1200, 800, 600)` maps to `(600, 400)` and
`(800, 1200, 600)` maps to `(400, 600)`. -/
theorem calculate_resize_dimensions_scales (width height max_size : Nat)
    (h : max_size < max width height) :
    calculate_resize_dimensions width height max_size =
      ((round ((width : ℚ) * ((max_size : ℚ) / ((max width height : ℕ) : ℚ)))).toNat,
       (round ((height : ℚ) * ((max_size : ℚ) / ((max width height : ℕ) : ℚ)))).toNat) ∧
    calculate_resize_dimensions 1200 800 600 = (600, 400) ∧
    calculate_resize_dimensions 800 1200 600 = (400, 600) := by
  refine ⟨?_, ?_, ?_⟩
  · simp only [calculate_resize_dimensions]
    rw [if_neg (not_le.mpr h)]
    rw [f64Round_eq_round (by positivity), f64Round_eq_round (by positivity)]
  · have := @calcRD_eval 1200 800 600 600 400 (by norm_num)
      (by rw [Int.floor_eq_iff]; norm_num) (by rw [Int.floor_eq_iff]; norm_num)
    simpa using this
  · have := @calcRD_eval 800 1200 600 400 600 (by norm_num)
      (by rw [Int.floor_eq_iff]; norm_num) (by rw [Int.floor_eq_iff]; norm_num)
    simpa using this

/-- Witness for claim C6: the hypothesis and conclusion instantiated at
`(1200, 800, 600)`. -/
theorem calculate_resize_dimensions_scales_witness :
    600 < max 1200 800 ∧ calculate_resize_dimensions 1200 800 600 = (600, 400) :=
  ⟨by decide, (calculate_resize_dimensions_scales 1200 800 600 (by decide)).2.1⟩

/-- Claim C7: the planner does not clamp to a minimum of 1: at
`(4294967295, 100, 50)` (the repository's own edge-case test) the longer edge
exceeds `max_size` and the returned pair contains a zero dimension. -/
theorem calculate_resize_dimensions_can_hit_zero :
    50 < max 4294967295 100 ∧
    calculate_resize_dimensions 4294967295 100 50 = (50, 0) := by
  refine ⟨by norm_num, ?_⟩
  have := @calcRD_eval 4294967295 100 50 50 0 (by norm_num)
    (by rw [Int.floor_eq_iff]; norm_num) (by rw [Int.floor_eq_iff]; norm_num)
  simpa using this

theorem isDigit_ne_plus {c : Char} (hc : c.isDigit = true) : c ≠ '+' := by
  intro h; subst h; exact absurd hc (by decide)

theorem foldl_decimalStep_mono (t : List Char) (acc : Nat) :
    acc ≤ t.foldl decimalStep acc := by
  induction t generalizing acc with
  | nil => exact le_refl acc
  | cons c cs ih =>
    rw [List.foldl_cons]
    refine le_trans ?_ (ih (decimalStep acc c))
    simp only [decimalStep]
    omega

theorem parseDigitsBounded_eq_some {bound : Nat} (t : List Char) :
    ∀ acc : Nat, t.all Char.isDigit = true →
      t.foldl decimalStep acc ≤ bound →
      parseDigitsBounded bound acc t = some (t.foldl decimalStep acc) := by
  induction t with
  | nil => intro acc _ _; simp [parseDigitsBounded]
  | cons c cs ih =>
    intro acc hall hb
    simp only [List.all_cons, Bool.and_eq_true] at hall
    obtain ⟨hc, hcs⟩ := hall
    rw [List.foldl_cons] at hb ⊢
    have hstep : acc * 10 + (c.toNat - '0'.toNat) = decimalStep acc c := by
      simp only [decimalStep]; ring
    have hmono := foldl_decimalStep_mono cs (decimalStep acc c)
    simp only [parseDigitsBounded, hc, if_true, hstep]
    rw [if_pos (le_trans hmono hb)]
    exact ih (decimalStep acc c) hcs hb

theorem parseDigitsBounded_some_inv {bound : Nat} (t : List Char) :
    ∀ acc v : Nat, acc ≤ bound → parseDigitsBounded bound acc t = some v →
      t.all Char.isDigit = true ∧ v = t.foldl decimalStep acc ∧ v ≤ bound := by
  induction t with
  | nil =>
    intro acc v hacc h
    simp only [parseDigitsBounded, Option.some.injEq] at h
    exact ⟨rfl, h.symm ▸ rfl, h ▸ hacc⟩
  | cons c cs ih =>
    intro acc v hacc h
    by_cases hc : c.isDigit = true
    · simp only [parseDigitsBounded, hc, if_true] at h
      have hstep : acc * 10 + (c.toNat - '0'.toNat) = decimalStep acc c := by
        simp only [decimalStep]; ring
      rw [hstep] at h
      by_cases hb2 : decimalStep acc c ≤ bound
      · rw [if_pos hb2] at h
        obtain ⟨ha, hv, hvb⟩ := ih (decimalStep acc c) v hb2 h
        refine ⟨by simp [hc, ha], ?_, hvb⟩
        rw [List.foldl_cons]
        exact hv
      · rw [if_neg hb2] at h
        exact absurd h (by simp)
    · simp [parseDigitsBounded, hc] at h

theorem parseUIntBounded_cons (bound : Nat) (c : Char) (rest : List Char) :
    parseUIntBounded bound (c :: rest) =
      if c = '+' then (if rest = [] then none else parseDigitsBounded bound 0 rest)
      else parseDigitsBounded bound 0 (c :: rest) := by
  by_cases h1 : c = '+'
  · subst h1; simp [parseUIntBounded]
  · simp [parseUIntBounded, h1]

theorem parseUIntBounded_some_iff {bound : Nat} (s : List Char) (v : Nat) :
    parseUIntBounded bound s = some v ↔
      denotesDecimalInt s (v : ℤ) ∧ v ≤ bound := by
  constructor
  · intro h
    match s with
    | [] => simp [parseUIntBounded] at h
    | c :: rest =>
      rw [parseUIntBounded_cons] at h
      by_cases h1 : c = '+'
      · subst h1
        rw [if_pos rfl] at h
        by_cases hr : rest = []
        · rw [if_pos hr] at h; exact absurd h (by simp)
        · rw [if_neg hr] at h
          obtain ⟨hall, hv, hvb⟩ := parseDigitsBounded_some_inv rest 0 v (Nat.zero_le _) h
          refine ⟨Or.inr ⟨rest, rfl, hr, hall, ?_⟩, hvb⟩
          rw [hv]; simp [decimalValue]
      · rw [if_neg h1] at h
        obtain ⟨hall, hv, hvb⟩ :=
          parseDigitsBounded_some_inv (c :: rest) 0 v (Nat.zero_le _) h
        refine ⟨Or.inl ⟨by simp, hall, ?_⟩, hvb⟩
        rw [hv]; simp [decimalValue]
  · rintro ⟨hden, hvb⟩
    rcases hden with ⟨hne, hall, hv⟩ | ⟨t, hs, htne, hall, hv⟩
    · obtain ⟨c, rest, rfl⟩ : ∃ c rest, s = c :: rest := by
        cases s with
        | nil => exact absurd rfl hne
        | cons c rest => exact ⟨c, rest, rfl⟩
      have hc : c.isDigit = true := by
        simp only [List.all_cons, Bool.and_eq_true] at hall
        exact hall.1
      have hvv : v = decimalValue (c :: rest) := by exact_mod_cast hv
      rw [parseUIntBounded_cons, if_neg (isDigit_ne_plus hc)]
      rw [parseDigitsBounded_eq_some (c :: rest) 0 hall (by rw [← decimalValue, ← hvv]; exact hvb)]
      rw [← decimalValue, ← hvv]
    · subst hs
      have hvv : v = decimalValue t := by exact_mod_cast hv
      rw [parseUIntBounded_cons, if_pos rfl, if_neg htne]
      rw [parseDigitsBounded_eq_some t 0 hall (by rw [← decimalValue, ← hvv]; exact hvb)]
      rw [← decimalValue, ← hvv]

/-- Claim C8: the oxipng level selection of `optimize_png` returns an error,
before the PNG-structure optimizer runs, exactly when the configured string is
neither the literal `"max"` nor a decimal integer (in Rust unsigned-integer
syntax: an optional leading plus sign and a nonempty digit string; a minus
sign is rejected) with value between 0 and 6 inclusive; `"max"` maps to
preset 6 and a numeric string with value `n ≤ 6` to preset `n`. -/
theorem png_preset_level_spec (s : List Char) :
    (png_preset_level s = none ↔
      ¬ (s = "max".data ∨ ∃ v : ℤ, denotesDecimalInt s v ∧ 0 ≤ v ∧ v ≤ 6)) ∧
    png_preset_level "max".data = some 6 ∧
    (∀ n : Nat, n ≤ 6 → denotesDecimalInt s (n : ℤ) → png_preset_level s = some n) := by
  refine ⟨⟨?_, ?_⟩, by simp [png_preset_level], ?_⟩
  · intro h hcon
    rcases hcon with hmax | ⟨v, hden, hv0, hv6⟩
    · rw [png_preset_level, if_pos hmax] at h
      exact absurd h (by simp)
    · have hvn : ((v.toNat : ℕ) : ℤ) = v := Int.toNat_of_nonneg hv0
      have hn6 : v.toNat ≤ 6 := by omega
      have hparse : parseUIntBounded 255 s = some v.toNat :=
        (parseUIntBounded_some_iff s v.toNat).mpr ⟨hvn ▸ hden, le_trans hn6 (by norm_num)⟩
      by_cases hmax : s = "max".data
      · rw [png_preset_level, if_pos hmax] at h
        exact absurd h (by simp)
      · rw [png_preset_level, if_neg hmax] at h
        have hu : u8FromStr s = some v.toNat := hparse
        rw [hu] at h
        simp only [if_pos hn6] at h
        exact absurd h (by simp)
  · intro hcon
    rw [png_preset_level]
    by_cases hmax : s = "max".data
    · exact absurd (Or.inl hmax) hcon
    · rw [if_neg hmax]
      cases hp : u8FromStr s with
      | none => rfl
      | some level =>
        obtain ⟨hden, _⟩ := (parseUIntBounded_some_iff s level).mp hp
        by_cases h6 : level ≤ 6
        · exact absurd
            (Or.inr ⟨(level : ℤ), hden, Int.natCast_nonneg level, by exact_mod_cast h6⟩) hcon
        · simp only [if_neg h6]
  · intro n hn6 hden
    by_cases hmax : s = "max".data
    · exfalso
      subst hmax
      rcases hden with ⟨_, hall, _⟩ | ⟨t, heq, _⟩
      · exact absurd hall (by decide)
      · have : ("max".data).head? = some '+' := by rw [heq]; rfl
        exact absurd this (by decide)
    · rw [png_preset_level, if_neg hmax]
      have hu : u8FromStr s = some n :=
        (parseUIntBounded_some_iff s n).mpr ⟨hden, le_trans hn6 (by norm_num)⟩
      rw [hu]
      simp only [if_pos hn6]

/-- Witness for claim C8: the string `"3"` denotes 3, which is at most 6, and
the selection indeed yields preset 3. -/
theorem png_preset_level_spec_witness :
    png_preset_level "3".data = some 3 :=
  (png_preset_level_spec "3".data).2.2 3 (by decide)
    (Or.inl ⟨by decide, by decide, by decide⟩)

theorem cmpZip_of_all_eq {l : List (Nat × Nat)} (h : ∀ p ∈ l, p.1 = p.2) :
    cmpZip l = none := by
  induction l with
  | nil => rfl
  | cons p rest ih =>
    obtain ⟨a, b⟩ := p
    have hab : a = b := h (a, b) (by simp)
    subst hab
    simp only [cmpZip, gt_iff_lt, lt_irrefl, if_false]
    exact ih (fun p hp => h p (List.mem_cons_of_mem _ hp))

/-- Claim C10: when both version strings parse and all pairwise-compared
numeric components are equal, `compare_versions` reports an update exactly
when the latest string has strictly more dot-separated components; in
particular `("1.0", "1.0.0")` reports an update while `("1.0.0", "1.0")` and
`("1.0", "1.0")` do not. -/
theorem compare_versions_length_tiebreak (current latest : List Char)
    (cp lp : List Nat)
    (hc : parse_version (trimStartMatchesV current) = some cp)
    (hl : parse_version (trimStartMatchesV latest) = some lp)
    (hall : ∀ p ∈ cp.zip lp, p.1 = p.2) :
    compare_versions current latest = some (decide (cp.length < lp.length)) ∧
    compare_versions "1.0".data "1.0.0".data = some true ∧
    compare_versions "1.0.0".data "1.0".data = some false ∧
    compare_versions "1.0".data "1.0".data = some false := by
  refine ⟨?_, by decide, by decide, by decide⟩
  rw [compare_versions]
  rw [hc, hl]
  simp only [Option.bind_eq_bind, Option.some_bind]
  rw [cmpZip_of_all_eq hall]
  rfl

/-- Witness for claim C10 at `("1.0", "1.0.0")`: all compared components are
equal and the latest version has one more component, so an update is
reported. -/
theorem compare_versions_length_tiebreak_witness :
    compare_versions "1.0".data "1.0.0".data = some true := by
  have h := compare_versions_length_tiebreak "1.0".data "1.0.0".data
    [1, 0] [1, 0, 0] (by decide) (by decide) (by decide)
  simpa using h.1

theorem foldl_image_processor (outcomes : List (Except OptError Nat)) :
    ∀ t : BatchTotals,
      (outcomes.foldl image_processor t).total_saved
          = t.total_saved + (outcomes.map savedBytesOf).sum ∧
      (outcomes.foldl image_processor t).processed
          = t.processed + (outcomes.filter isShrunk).length ∧
      (outcomes.foldl image_processor t).skipped
          = t.skipped + (outcomes.filter isSkipped).length := by
  induction outcomes with
  | nil => intro t; simp
  | cons r rest ih =>
    intro t
    obtain ⟨h1, h2, h3⟩ := ih (image_processor t r)
    rw [List.foldl_cons]
    refine ⟨?_, ?_, ?_⟩
    · rw [h1]
      cases r with
      | ok saved =>
        by_cases hs : saved > 0
        · simp [image_processor, hs, savedBytesOf]; omega
        · simp [image_processor, hs, savedBytesOf]; omega
      | error e => simp [image_processor, savedBytesOf]
    · rw [h2]
      cases r with
      | ok saved =>
        by_cases hs : saved > 0
        · simp [image_processor, hs, isShrunk, List.filter_cons]; omega
        · simp [image_processor, hs, isShrunk, List.filter_cons]
      | error e => simp [image_processor, isShrunk, List.filter_cons]
    · rw [h3]
      cases r with
      | ok saved =>
        by_cases hs : saved > 0
        · have hz : ¬ (saved = 0) := by omega
          simp [image_processor, hs, hz, isSkipped, List.filter_cons]
        · have hz : saved = 0 := by omega
          simp [image_processor, hs, hz, isSkipped, List.filter_cons]; omega
      | error e => simp [image_processor, isSkipped, List.filter_cons]

theorem filter_shrunk_skipped_le (outcomes : List (Except OptError Nat)) :
    (outcomes.filter isShrunk).length + (outcomes.filter isSkipped).length
      ≤ outcomes.length := by
  induction outcomes with
  | nil => simp
  | cons r rest ih =>
    cases r with
    | ok saved =>
      by_cases hs : saved > 0
      · have hz : ¬ (saved = 0) := by omega
        simp [List.filter_cons, isShrunk, isSkipped, hs, hz]; omega
      · have hz : saved = 0 := by omega
        simp [List.filter_cons, isShrunk, isSkipped, hs, hz]; omega
    | error e =>
      simp [List.filter_cons, isShrunk, isSkipped]; omega

theorem run_batch_eq_foldl (args : Cli) (input_dir : FsPath) (envOf : FsPath → Env) :
    ∀ (files : List FsPath) (fs : FS) (t : BatchTotals),
      (files.foldl (fun st f =>
          let r := optimize_image st.1 f args input_dir (envOf f)
          (r.2, image_processor st.2 r.1)) (fs, t)).2
        = (batch_outcomes args input_dir envOf fs files).foldl image_processor t := by
  intro files
  induction files with
  | nil => intro fs t; rfl
  | cons f rest ih =>
    intro fs t
    rw [List.foldl_cons, batch_outcomes, List.foldl_cons]
    exact ih _ _

/-- Claim C4: over any batch run, each outcome feeds exactly one bucket: the
final `processed` counter counts the positive-savings outcomes, `skipped`
counts the zero-savings outcomes, `total_saved` is the sum of the saved
bytes (errors contributing nothing), so `processed + skipped` never exceeds
the number of discovered files; and the sequential batch loop of `main` is
exactly this fold over the per-file outcomes. -/
theorem batch_counters_spec (outcomes : List (Except OptError Nat)) :
    ((outcomes.foldl image_processor ⟨0, 0, 0⟩).processed
        = (outcomes.filter isShrunk).length ∧
     (outcomes.foldl image_processor ⟨0, 0, 0⟩).skipped
        = (outcomes.filter isSkipped).length ∧
     (outcomes.foldl image_processor ⟨0, 0, 0⟩).total_saved
        = (outcomes.map savedBytesOf).sum ∧
     (outcomes.foldl image_processor ⟨0, 0, 0⟩).processed
        + (outcomes.foldl image_processor ⟨0, 0, 0⟩).skipped ≤ outcomes.length) ∧
    (∀ (args : Cli) (input_dir : FsPath) (envOf : FsPath → Env) (fs : FS)
        (files : List FsPath),
      run_batch args input_dir envOf fs files
        = (batch_outcomes args input_dir envOf fs files).foldl
            image_processor ⟨0, 0, 0⟩) := by
  constructor
  · obtain ⟨h1, h2, h3⟩ := foldl_image_processor outcomes ⟨0, 0, 0⟩
    refine ⟨by simpa using h2, by simpa using h3, by simpa using h1, ?_⟩
    rw [h2, h3]
    simpa using filter_shrunk_skipped_le outcomes
  · intro args input_dir envOf fs files
    rw [run_batch]
    exact run_batch_eq_foldl args input_dir envOf files fs ⟨0, 0, 0⟩

theorem pathWithExtension_ne {p : FsPath} {ext : List Char} (hp : p ≠ [])
    (hne : withExtension (p.getLast hp) ext ≠ p.getLast hp) :
    pathWithExtension p ext ≠ p := by
  intro heq
  rw [pathWithExtension, List.getLast?_eq_getLast_of_ne_nil hp] at heq
  simp only at heq
  conv at heq => rhs; rw [← List.dropLast_append_getLast hp]
  have := List.append_cancel_left heq
  simp only [List.cons.injEq, and_true] at this
  exact hne this

theorem inPlaceStagingPath_ne {p : FsPath} (hp : p ≠ []) :
    inPlaceStagingPath p ≠ p := by
  rw [inPlaceStagingPath]
  have hpe : pathExtension p = fileExtension (p.getLast hp) := by
    rw [pathExtension, List.getLast?_eq_getLast_of_ne_nil hp]
    rfl
  apply pathWithExtension_ne hp
  apply withExtension_ne
  rw [hpe]
  cases hfe : fileExtension (p.getLast hp) with
  | none => simp
  | some e => simp [List.length_append]; omega

theorem backupPath_ne {p : FsPath} (hp : p ≠ []) : backupPath p ≠ p := by
  rw [backupPath]
  have hpe : pathExtension p = fileExtension (p.getLast hp) := by
    rw [pathExtension, List.getLast?_eq_getLast_of_ne_nil hp]
    rfl
  apply pathWithExtension_ne hp
  apply withExtension_ne
  rw [hpe]
  cases hfe : fileExtension (p.getLast hp) with
  | none => simp
  | some e => simp [List.length_append]

theorem stripPfx_some : ∀ {pre p r : FsPath}, stripPfx pre p = some r → p = pre ++ r := by
  intro pre
  induction pre with
  | nil =>
    intro p r h
    simp only [stripPfx, Option.some.injEq] at h
    simp [h]
  | cons a asr ih =>
    intro p r h
    cases p with
    | nil => simp [stripPfx] at h
    | cons b bs =>
      simp only [stripPfx] at h
      by_cases hab : a = b
      · rw [if_pos hab] at h
        subst hab
        simp [ih h]
      · rw [if_neg hab] at h
        exact absurd h (by simp)

/-- Claim C9: for every input path carrying a nonempty extension, the
in-place staging path — the name with its extension replaced by `tmp.`
followed by that extension — differs from the input path, so encoding to the
staging path never overwrites the original before the size comparison. -/
theorem staging_path_ne_input (p : FsPath) (e : List Char)
    (he : pathExtension p = some e) (_hne : e ≠ []) :
    inPlaceStagingPath p ≠ p := by
  have hp : p ≠ [] := by
    intro h
    subst h
    simp [pathExtension] at he
  exact inPlaceStagingPath_ne hp

/-- Witness for claim C9 at the path `a.jpg`: its staging sibling `a.tmp.jpg`
is a different path. -/
theorem staging_path_ne_input_witness :
    pathExtension ["a.jpg".data] = some "jpg".data ∧
    inPlaceStagingPath ["a.jpg".data] ≠ ["a.jpg".data] :=
  ⟨by decide, staging_path_ne_input ["a.jpg".data] "jpg".data (by decide) (by decide)⟩


theorem afterBackup_ok {fs : FS} {p : FsPath} {orig : Content} {b bok : Bool} {fs1 : FS}
    (h : (if (b = true) then
            (if (bok = true) then Except.ok (fsWrite fs (backupPath p) orig)
             else Except.error OptError.backupFailed)
          else Except.ok fs) = Except.ok fs1) :
    ∀ q, q ≠ backupPath p → fs1 q = fs q := by
  by_cases hb : b = true
  · rw [if_pos hb] at h
    by_cases hk : bok = true
    · rw [if_pos hk] at h
      have := Except.ok.inj h
      subst this
      intro q hq
      simp [fsWrite, hq]
    · rw [if_neg hk] at h
      exact absurd h (by simp)
  · rw [if_neg hb] at h
    have := Except.ok.inj h
    subst this
    intro q _
    rfl

theorem afterBackup_error {fs : FS} {p : FsPath} {orig : Content} {b bok : Bool}
    {e : OptError}
    (h : (if (b = true) then
            (if (bok = true) then Except.ok (fsWrite fs (backupPath p) orig)
             else Except.error OptError.backupFailed)
          else Except.ok fs) = Except.error e) :
    b = true ∧ bok = false := by
  by_cases hb : b = true
  · rw [if_pos hb] at h
    by_cases hk : bok = true
    · rw [if_pos hk] at h
      exact absurd h (by simp)
    · exact ⟨hb, by simpa using hk⟩
  · rw [if_neg hb] at h
    exact absurd h (by simp)

theorem fsWrite_same (fs : FS) (p : FsPath) (c : Content) : fsWrite fs p c p = some c := by
  simp [fsWrite]

theorem fsWrite_other (fs : FS) (p q : FsPath) (c : Content) (h : q ≠ p) :
    fsWrite fs p c q = fs q := by
  simp [fsWrite, h]

theorem fsErase_other (fs : FS) (p q : FsPath) (h : q ≠ p) : fsErase fs p q = fs q := by
  simp [fsErase, h]

theorem fsErase_same (fs : FS) (p : FsPath) : fsErase fs p p = none := by
  simp [fsErase]

theorem fsRename_dst (fs : FS) (src dst : FsPath) : fsRename fs src dst dst = fs src := by
  simp [fsRename]

theorem fsRename_src (fs : FS) (src dst : FsPath) (h : src ≠ dst) :
    fsRename fs src dst src = none := by
  simp [fsRename, h]

theorem fsRename_other (fs : FS) (src dst q : FsPath) (hd : q ≠ dst) (hs : q ≠ src) :
    fsRename fs src dst q = fs q := by
  simp [fsRename, hd, hs]

/-- Claim C2: when the staged encoded output is strictly smaller than the
original, in-place mode renames the staging file over the original (the input
path then holds the staged bytes and the staging file is gone), separate-output
mode leaves the staged file in place at the resolved output path, and both
modes return `original_size - optimized_size`. -/
theorem optimize_image_smaller_spec
    (fs : FS) (input_path : FsPath) (args : Cli) (input_dir : FsPath) (env : Env)
    (orig staged : Content)
    (hp : input_path ≠ [])
    (hfs : fs input_path = some orig)
    (henc : env.encodeResult = some staged)
    (hlt : staged.length < orig.length)
    (hsup : dispatchSupported (lowerExtOf input_path) = true)
    (hdec : args.max_size.isSome = true → env.decodeResult.isSome = true)
    (hbk : args.backup = true → args.output = none → env.backupOk = true)
    (hres : ∀ d, args.output = some d → ∃ rel, stripPfx input_dir input_path = some rel) :
    (optimize_image fs input_path args input_dir env).1
        = .ok (orig.length - staged.length) ∧
    (args.output = none →
      (optimize_image fs input_path args input_dir env).2 input_path = some staged ∧
      (optimize_image fs input_path args input_dir env).2 (inPlaceStagingPath input_path)
        = none) ∧
    (∀ d rel, args.output = some d → stripPfx input_dir input_path = some rel →
      (optimize_image fs input_path args input_dir env).2 (d ++ rel) = some staged) := by
  have hcond : (args.max_size.isSome && env.decodeResult.isNone) = false := by
    cases hms : args.max_size.isSome with
    | false => simp
    | true =>
      have h1 := hdec hms
      simp only [Bool.and_eq_false_iff]
      right
      cases henv : env.decodeResult with
      | none => rw [henv] at h1; simp at h1
      | some x => simp
  have hstag := inPlaceStagingPath_ne hp
  cases hout : args.output with
  | none =>
    have hfs1def : (if args.backup = true then
          (if env.backupOk = true then Except.ok (fsWrite fs (backupPath input_path) orig)
           else Except.error OptError.backupFailed)
        else (Except.ok fs : Except OptError FS))
        = Except.ok (if args.backup = true then fsWrite fs (backupPath input_path) orig
            else fs) := by
      by_cases hb : args.backup = true
      · rw [if_pos hb, if_pos (hbk hb hout), if_pos hb]
      · rw [if_neg hb, if_neg hb]
    have hmain : optimize_image fs input_path args input_dir env
        = (.ok (orig.length - staged.length),
           fsRename (fsWrite
               (if args.backup = true then fsWrite fs (backupPath input_path) orig else fs)
               (inPlaceStagingPath input_path) staged)
             (inPlaceStagingPath input_path) input_path) := by
      simp only [optimize_image, hfs, hout, Option.isNone_none, Bool.and_true, henc, hcond,
        Bool.false_eq_true, if_false, hsup, Bool.not_true, fsWrite_same, if_true]
      rw [hfs1def]
      dsimp only
      rw [if_pos hlt]
    refine ⟨by rw [hmain], fun _ => ⟨?_, ?_⟩,
      fun d rel hd _ => by exact absurd hd (by simp)⟩
    · rw [hmain]
      simp [fsRename, fsWrite]
    · rw [hmain]
      simp [fsRename, fsWrite, hstag]
  | some dir =>
    obtain ⟨rel0, hrel0⟩ := hres dir hout
    have hmainS : optimize_image fs input_path args input_dir env
        = (.ok (orig.length - staged.length), fsWrite fs (dir ++ rel0) staged) := by
      simp only [optimize_image, hfs, hout, Option.isNone_some, Bool.and_false, henc, hcond,
        Bool.false_eq_true, if_false, hsup, Bool.not_true, fsWrite_same, ensure_output_dir,
        hrel0, Option.map_some', if_true]
      rw [if_pos hlt]
    refine ⟨by rw [hmainS], fun h0 => by exact absurd h0 (by simp), ?_⟩
    intro d rel hd hrel
    have hdd : dir = d := Option.some.inj hd
    subst hdd
    rw [hrel0] at hrel
    have hr : rel0 = rel := Option.some.inj hrel
    subst hr
    rw [hmainS]
    simp [fsWrite]

/-- Claim C3 (amended): when the staged output is not strictly smaller, the
run reports zero saved bytes; in-place mode deletes the staging file and
leaves the original untouched; separate-output mode copies the input file,
unmodified, into the resolved output location — which holds the original's
content provided the output directory differs from the input root (otherwise
the resolved output path is the input path itself, which the staging write
already overwrote) — so the resolved output location is always populated. -/
theorem optimize_image_not_smaller_spec
    (fs : FS) (input_path : FsPath) (args : Cli) (input_dir : FsPath) (env : Env)
    (orig staged : Content)
    (hp : input_path ≠ [])
    (hfs : fs input_path = some orig)
    (henc : env.encodeResult = some staged)
    (hge : orig.length ≤ staged.length)
    (hsup : dispatchSupported (lowerExtOf input_path) = true)
    (hdec : args.max_size.isSome = true → env.decodeResult.isSome = true)
    (hbk : args.backup = true → args.output = none → env.backupOk = true)
    (hres : ∀ d, args.output = some d → ∃ rel, stripPfx input_dir input_path = some rel) :
    (optimize_image fs input_path args input_dir env).1 = .ok 0 ∧
    (args.output = none →
      (optimize_image fs input_path args input_dir env).2 input_path = fs input_path ∧
      (optimize_image fs input_path args input_dir env).2 (inPlaceStagingPath input_path)
        = none) ∧
    (∀ d rel, args.output = some d → d ≠ input_dir →
      stripPfx input_dir input_path = some rel →
      (optimize_image fs input_path args input_dir env).2 (d ++ rel) = some orig ∧
      (optimize_image fs input_path args input_dir env).2 input_path = fs input_path) := by
  have hcond : (args.max_size.isSome && env.decodeResult.isNone) = false := by
    cases hms : args.max_size.isSome with
    | false => simp
    | true =>
      have h1 := hdec hms
      simp only [Bool.and_eq_false_iff]
      right
      cases henv : env.decodeResult with
      | none => rw [henv] at h1; simp at h1
      | some x => simp
  have hstag := inPlaceStagingPath_ne hp
  have hnlt : ¬ (staged.length < orig.length) := not_lt.mpr hge
  cases hout : args.output with
  | none =>
    have hfs1def : (if args.backup = true then
          (if env.backupOk = true then Except.ok (fsWrite fs (backupPath input_path) orig)
           else Except.error OptError.backupFailed)
        else (Except.ok fs : Except OptError FS))
        = Except.ok (if args.backup = true then fsWrite fs (backupPath input_path) orig
            else fs) := by
      by_cases hb : args.backup = true
      · rw [if_pos hb, if_pos (hbk hb hout), if_pos hb]
      · rw [if_neg hb, if_neg hb]
    have hfs1q : ∀ q, q ≠ backupPath input_path →
        (if args.backup = true then fsWrite fs (backupPath input_path) orig else fs) q
          = fs q := by
      intro q hq
      by_cases hb : args.backup = true
      · rw [if_pos hb, fsWrite_other _ _ _ _ hq]
      · rw [if_neg hb]
    have hmain : optimize_image fs input_path args input_dir env
        = (.ok 0,
           fsErase (fsWrite
               (if args.backup = true then fsWrite fs (backupPath input_path) orig else fs)
               (inPlaceStagingPath input_path) staged)
             (inPlaceStagingPath input_path)) := by
      simp only [optimize_image, hfs, hout, Option.isNone_none, Bool.and_true, henc, hcond,
        Bool.false_eq_true, if_false, hsup, Bool.not_true, fsWrite_same, if_true]
      rw [hfs1def]
      dsimp only
      rw [if_neg hnlt]
    refine ⟨by rw [hmain], fun _ => ⟨?_, ?_⟩,
      fun d rel hd _ _ => by exact absurd hd (by simp)⟩
    · rw [hmain]
      show fsErase _ _ input_path = fs input_path
      rw [fsErase_other _ _ _ (Ne.symm hstag), fsWrite_other _ _ _ _ (Ne.symm hstag)]
      exact hfs1q input_path (Ne.symm (backupPath_ne hp))
    · rw [hmain]
      exact fsErase_same _ _
  | some dir =>
    obtain ⟨rel0, hrel0⟩ := hres dir hout
    have hcur : ∃ cur, fsWrite fs (dir ++ rel0) staged input_path = some cur := by
      by_cases hali : input_path = dir ++ rel0
      · exact ⟨staged, by rw [hali, fsWrite_same]⟩
      · exact ⟨orig, by rw [fsWrite_other _ _ _ _ hali]; exact hfs⟩
    obtain ⟨cur, hcurv⟩ := hcur
    have hmainS : optimize_image fs input_path args input_dir env
        = (.ok 0, fsWrite (fsWrite fs (dir ++ rel0) staged) (dir ++ rel0)
            (if dir ++ rel0 = input_path then [] else cur)) := by
      simp only [optimize_image, hfs, hout, Option.isNone_some, Bool.and_false, henc, hcond,
        Bool.false_eq_true, if_false, hsup, Bool.not_true, fsWrite_same, ensure_output_dir,
        hrel0, Option.map_some', if_true]
      rw [if_neg hnlt]
      simp only [fsCopy, hcurv]
    refine ⟨by rw [hmainS], fun h0 => by exact absurd h0 (by simp), ?_⟩
    intro d rel hd hne hrel
    have hdd : dir = d := Option.some.inj hd
    subst hdd
    rw [hrel0] at hrel
    have hr : rel0 = rel := Option.some.inj hrel
    subst hr
    have hinp : input_path = input_dir ++ rel0 := stripPfx_some hrel0
    have houtne : input_path ≠ dir ++ rel0 := by
      rw [hinp]
      intro hcontra
      exact hne (List.append_cancel_right hcontra.symm)
    have hcor : cur = orig := by
      rw [fsWrite_other _ _ _ _ houtne, hfs] at hcurv
      exact (Option.some.inj hcurv).symm
    subst hcor
    rw [if_neg (Ne.symm houtne)] at hmainS
    constructor
    · rw [hmainS]
      exact fsWrite_same _ _ _
    · rw [hmainS]
      show fsWrite _ _ _ input_path = fs input_path
      rw [fsWrite_other _ _ _ _ houtne, fsWrite_other _ _ _ _ houtne]

/-- Claim C1 (amended): provided the resolved output path is distinct from the
input path — which always holds in in-place mode, and holds in separate-output
mode whenever the output directory differs from the input root — a failing
run of `optimize_image` returns an error with the input file's content and
presence unchanged, and any run that changes the content at the input path is
a successful in-place rename of a strictly smaller staged output, returning
exactly the saved byte difference. -/
theorem optimize_image_failure_atomicity
    (fs : FS) (input_path : FsPath) (args : Cli) (input_dir : FsPath) (env : Env)
    (hp : input_path ≠ [])
    (hdist : ∀ d, args.output = some d → d ≠ input_dir) :
    ((∃ e, (optimize_image fs input_path args input_dir env).1 = .error e) →
      (optimize_image fs input_path args input_dir env).2 input_path = fs input_path) ∧
    ((optimize_image fs input_path args input_dir env).2 input_path ≠ fs input_path →
      ∃ orig staged,
        fs input_path = some orig ∧
        env.encodeResult = some staged ∧
        staged.length < orig.length ∧
        args.output = none ∧
        (optimize_image fs input_path args input_dir env).2 input_path = some staged ∧
        (optimize_image fs input_path args input_dir env).1
          = .ok (orig.length - staged.length)) := by
  have hstag := inPlaceStagingPath_ne hp
  cases hfsi : fs input_path with
  | none =>
    have hrun : optimize_image fs input_path args input_dir env
        = (.error .metadataFailed, fs) := by
      simp only [optimize_image, hfsi]
    rw [hrun]
    exact ⟨fun _ => hfsi, fun hne => absurd hfsi hne⟩
  | some orig =>
  cases hout : args.output with
  | some dir =>
    have hdne : dir ≠ input_dir := hdist dir hout
    cases hrel : stripPfx input_dir input_path with
    | none =>
      have hrun : optimize_image fs input_path args input_dir env
          = (.error .outputResolveFailed, fs) := by
        simp only [optimize_image, hfsi, hout, ensure_output_dir, hrel, Option.map_none']
      rw [hrun]
      exact ⟨fun _ => hfsi, fun hne => absurd hfsi hne⟩
    | some rel =>
      have hinp : input_path = input_dir ++ rel := stripPfx_some hrel
      have houtne : input_path ≠ dir ++ rel := by
        rw [hinp]
        intro hcontra
        exact hdne (List.append_cancel_right hcontra.symm)
      by_cases hdc : (args.max_size.isSome && env.decodeResult.isNone) = true
      · have hrun : optimize_image fs input_path args input_dir env
            = (.error .decodeFailed, fs) := by
          simp only [optimize_image, hfsi, hout, ensure_output_dir, hrel, Option.map_some',
            Option.isNone_some, Bool.and_false, Bool.false_eq_true, if_false, hdc, if_true]
        rw [hrun]
        exact ⟨fun _ => hfsi, fun hne => absurd hfsi hne⟩
      · have hdc' : (args.max_size.isSome && env.decodeResult.isNone) = false :=
          Bool.eq_false_iff.mpr hdc
        by_cases hsup : dispatchSupported (lowerExtOf input_path) = true
        · cases hen : env.encodeResult with
          | none =>
            have hrun : optimize_image fs input_path args input_dir env
                = (.error .encodeFailed,
                   match env.encodeLeftover with
                   | some junk => fsWrite fs (dir ++ rel) junk
                   | none => fs) := by
              simp only [optimize_image, hfsi, hout, ensure_output_dir, hrel,
                Option.map_some', Option.isNone_some, Bool.and_false, Bool.false_eq_true,
                if_false, hdc', hsup, Bool.not_true, hen]
            have hpres : (optimize_image fs input_path args input_dir env).2 input_path
                = fs input_path := by
              rw [hrun]
              cases env.encodeLeftover with
              | none => rfl
              | some junk => exact fsWrite_other _ _ _ _ houtne
            exact ⟨fun _ => hpres.trans hfsi, fun hne => absurd (hpres.trans hfsi) hne⟩
          | some staged =>
            by_cases hlt : staged.length < orig.length
            · have hrun : optimize_image fs input_path args input_dir env
                  = (.ok (orig.length - staged.length),
                     fsWrite fs (dir ++ rel) staged) := by
                simp only [optimize_image, hfsi, hout, ensure_output_dir, hrel,
                  Option.map_some', Option.isNone_some, Bool.and_false, Bool.false_eq_true,
                  if_false, hdc', hsup, Bool.not_true, hen, fsWrite_same, if_true]
                rw [if_pos hlt]
              have hpres : (optimize_image fs input_path args input_dir env).2 input_path
                  = fs input_path := by
                rw [hrun]
                exact fsWrite_other _ _ _ _ houtne
              refine ⟨?_, fun hne => absurd (hpres.trans hfsi) hne⟩
              rintro ⟨e, he⟩
              rw [hrun] at he
              exact absurd he (by simp)
            · have hcurv : fsWrite fs (dir ++ rel) staged input_path = some orig := by
                rw [fsWrite_other _ _ _ _ houtne]
                exact hfsi
              have hrun : optimize_image fs input_path args input_dir env
                  = (.ok 0, fsWrite (fsWrite fs (dir ++ rel) staged) (dir ++ rel) orig) := by
                simp only [optimize_image, hfsi, hout, ensure_output_dir, hrel,
                  Option.map_some', Option.isNone_some, Bool.and_false, Bool.false_eq_true,
                  if_false, hdc', hsup, Bool.not_true, hen, fsWrite_same, if_true]
                rw [if_neg hlt]
                simp only [fsCopy, hcurv]
                rw [if_neg (Ne.symm houtne)]
              have hpres : (optimize_image fs input_path args input_dir env).2 input_path
                  = fs input_path := by
                rw [hrun]
                show fsWrite _ _ _ input_path = fs input_path
                rw [fsWrite_other _ _ _ _ houtne, fsWrite_other _ _ _ _ houtne]
              refine ⟨?_, fun hne => absurd (hpres.trans hfsi) hne⟩
              rintro ⟨e, he⟩
              rw [hrun] at he
              exact absurd he (by simp)
        · have hsup' : dispatchSupported (lowerExtOf input_path) = false :=
            Bool.eq_false_iff.mpr hsup
          have hrun : optimize_image fs input_path args input_dir env
              = (.error .unsupportedFormat, fs) := by
            simp only [optimize_image, hfsi, hout, ensure_output_dir, hrel,
              Option.map_some', Option.isNone_some, Bool.and_false, Bool.false_eq_true,
              if_false, hdc', hsup', Bool.not_false, if_true]
          rw [hrun]
          exact ⟨fun _ => hfsi, fun hne => absurd hfsi hne⟩
  | none =>
    cases habe : (if args.backup = true then
        (if env.backupOk = true then Except.ok (fsWrite fs (backupPath input_path) orig)
         else Except.error OptError.backupFailed)
      else (Except.ok fs : Except OptError FS)) with
    | error e0 =>
      have hrun : optimize_image fs input_path args input_dir env = (.error e0, fs) := by
        simp only [optimize_image, hfsi, hout, Option.isNone_none, Bool.and_true]
        rw [habe]
      rw [hrun]
      exact ⟨fun _ => hfsi, fun hne => absurd hfsi hne⟩
    | ok fs1 =>
      have hfs1 : fs1 input_path = fs input_path :=
        afterBackup_ok habe input_path (Ne.symm (backupPath_ne hp))
      by_cases hdc : (args.max_size.isSome && env.decodeResult.isNone) = true
      · have hrun : optimize_image fs input_path args input_dir env
            = (.error .decodeFailed, fs1) := by
          simp only [optimize_image, hfsi, hout, Option.isNone_none, Bool.and_true]
          rw [habe]
          simp only [hdc, if_true]
        rw [hrun]
        exact ⟨fun _ => hfs1.trans hfsi, fun hne => absurd (hfs1.trans hfsi) hne⟩
      · have hdc' : (args.max_size.isSome && env.decodeResult.isNone) = false :=
          Bool.eq_false_iff.mpr hdc
        by_cases hsup : dispatchSupported (lowerExtOf input_path) = true
        · cases hen : env.encodeResult with
          | none =>
            have hrun : optimize_image fs input_path args input_dir env
                = (.error .encodeFailed,
                   match env.encodeLeftover with
                   | some junk => fsWrite fs1 (inPlaceStagingPath input_path) junk
                   | none => fs1) := by
              simp only [optimize_image, hfsi, hout, Option.isNone_none, Bool.and_true]
              rw [habe]
              simp only [hdc', Bool.false_eq_true, if_false, hsup, Bool.not_true, hen]
            have hpres : (optimize_image fs input_path args input_dir env).2 input_path
                = fs input_path := by
              rw [hrun]
              cases env.encodeLeftover with
              | none => exact hfs1
              | some junk =>
                show fsWrite _ _ _ input_path = fs input_path
                rw [fsWrite_other _ _ _ _ (Ne.symm hstag)]
                exact hfs1
            exact ⟨fun _ => hpres.trans hfsi, fun hne => absurd (hpres.trans hfsi) hne⟩
          | some staged =>
            by_cases hlt : staged.length < orig.length
            · have hrun : optimize_image fs input_path args input_dir env
                  = (.ok (orig.length - staged.length),
                     fsRename (fsWrite fs1 (inPlaceStagingPath input_path) staged)
                       (inPlaceStagingPath input_path) input_path) := by
                simp only [optimize_image, hfsi, hout, Option.isNone_none, Bool.and_true]
                rw [habe]
                simp only [hdc', Bool.false_eq_true, if_false, hsup, Bool.not_true, hen,
                  fsWrite_same, if_true]
                rw [if_pos hlt]
              have hval : (optimize_image fs input_path args input_dir env).2 input_path
                  = some staged := by
                rw [hrun]
                show fsRename _ _ _ input_path = some staged
                rw [fsRename_dst]
                exact fsWrite_same _ _ _
              refine ⟨?_, fun _ => ⟨orig, staged, rfl, rfl, hlt, rfl, hval, by rw [hrun]⟩⟩
              rintro ⟨e, he⟩
              rw [hrun] at he
              exact absurd he (by simp)
            · have hrun : optimize_image fs input_path args input_dir env
                  = (.ok 0, fsErase (fsWrite fs1 (inPlaceStagingPath input_path) staged)
                      (inPlaceStagingPath input_path)) := by
                simp only [optimize_image, hfsi, hout, Option.isNone_none, Bool.and_true]
                rw [habe]
                simp only [hdc', Bool.false_eq_true, if_false, hsup, Bool.not_true, hen,
                  fsWrite_same, if_true]
                rw [if_neg hlt]
              have hpres : (optimize_image fs input_path args input_dir env).2 input_path
                  = fs input_path := by
                rw [hrun]
                show fsErase _ _ input_path = fs input_path
                rw [fsErase_other _ _ _ (Ne.symm hstag),
                  fsWrite_other _ _ _ _ (Ne.symm hstag)]
                exact hfs1
              refine ⟨?_, fun hne => absurd (hpres.trans hfsi) hne⟩
              rintro ⟨e, he⟩
              rw [hrun] at he
              exact absurd he (by simp)
        · have hsup' : dispatchSupported (lowerExtOf input_path) = false :=
            Bool.eq_false_iff.mpr hsup
          have hrun : optimize_image fs input_path args input_dir env
              = (.error .unsupportedFormat, fs1) := by
            simp only [optimize_image, hfsi, hout, Option.isNone_none, Bool.and_true]
            rw [habe]
            simp only [hdc', Bool.false_eq_true, if_false, hsup', Bool.not_false, if_true]
          rw [hrun]
          exact ⟨fun _ => hfs1.trans hfsi, fun hne => absurd (hfs1.trans hfsi) hne⟩

/-- Counterexample to claim C1 as stated: with the output directory equal to
the input root, the resolved output path is the input path itself, so a
failed staging write mutates the original file directly: the run returns an
encode error, yet the input file's content has been replaced by the partial
staging bytes — and on the success path of the same configuration a run
reports saved bytes after the staging write alone (never a rename, since
separate-output mode does not rename) overwrote the original. -/
theorem optimize_image_alias_mutation_cex :
    (optimize_image cexFs cexInputPath cexArgsAlias cexDir cexEnvFail).1
      = .error .encodeFailed ∧
    cexFs cexInputPath = some [0, 1, 2] ∧
    (optimize_image cexFs cexInputPath cexArgsAlias cexDir cexEnvFail).2 cexInputPath
      = some [5, 5] ∧
    (optimize_image cexFs cexInputPath cexArgsAlias cexDir cexEnvSmaller).1 = .ok 2 ∧
    (optimize_image cexFs cexInputPath cexArgsAlias cexDir cexEnvSmaller).2 cexInputPath
      = some [7] := by
  refine ⟨rfl, rfl, rfl, rfl, rfl⟩

/-- Witness for claim C1 (amended) at a concrete in-place run whose encode
step fails partway through the staging write: the error is surfaced and the
input file still holds its original bytes. -/
theorem optimize_image_failure_atomicity_witness :
    (optimize_image cexFs cexInputPath inPlaceArgs cexDir failEnv).2 cexInputPath
      = cexFs cexInputPath :=
  (optimize_image_failure_atomicity cexFs cexInputPath inPlaceArgs cexDir failEnv
      (by decide) (fun d hd => by simp [inPlaceArgs] at hd)).1
    ⟨.encodeFailed, rfl⟩

/-- Witness for claim C2: a 10000-byte file whose staged output is 8000
bytes, optimized in place, reports 2000 saved bytes. -/
theorem optimize_image_smaller_spec_witness :
    (optimize_image bigFs cexInputPath inPlaceArgs cexDir bigEnv).1 = .ok 2000 := by
  have h := optimize_image_smaller_spec bigFs cexInputPath inPlaceArgs cexDir bigEnv
    (List.replicate 10000 0) (List.replicate 8000 0)
    (by decide)
    rfl
    rfl
    (by rw [List.length_replicate, List.length_replicate]; norm_num)
    (by decide)
    (fun hms => by simp [inPlaceArgs] at hms)
    (fun _ _ => rfl)
    (fun d hd => by simp [inPlaceArgs] at hd)
  rw [h.1]
  norm_num [List.length_replicate]

/-- Counterexample to claim C3 as stated: with the output directory equal to
the input root, the staged larger output overwrites the original during
staging, and the final `fs::copy(input, output)` copies the file onto
itself — truncating it before reading, the documented hazard of aliased
copies — so the run reports zero saved bytes while the resolved output
location (the input path itself) ends up as an empty file rather than a copy
of the unmodified original. -/
theorem optimize_image_alias_copy_cex :
    cexFs cexInputPath = some [0, 1, 2] ∧
    (optimize_image cexFs cexInputPath cexArgsAlias cexDir cexEnvLarger).1 = .ok 0 ∧
    (optimize_image cexFs cexInputPath cexArgsAlias cexDir cexEnvLarger).2
        (cexDir ++ ["a.jpg".data]) = some [] := by
  refine ⟨rfl, rfl, rfl⟩

/-- Witness for claim C3 (amended): a 500-byte file whose staged output is
600 bytes, optimized in place, reports zero saved bytes and keeps the
original. -/
theorem optimize_image_not_smaller_spec_witness :
    (optimize_image pngFs pngPath inPlaceArgs cexDir pngEnv).1 = .ok 0 ∧
    (optimize_image pngFs pngPath inPlaceArgs cexDir pngEnv).2 pngPath
      = pngFs pngPath := by
  have h := optimize_image_not_smaller_spec pngFs pngPath inPlaceArgs cexDir pngEnv
    (List.replicate 500 0) (List.replicate 600 0)
    (by decide)
    rfl
    rfl
    (by rw [List.length_replicate, List.length_replicate]; norm_num)
    (by decide)
    (fun hms => by simp [inPlaceArgs] at hms)
    (fun _ _ => rfl)
    (fun d hd => by simp [inPlaceArgs] at hd)
  exact ⟨h.1, (h.2.1 rfl).1⟩
